import Mathlib

/-!
Verification development for the `uid` identifier-generation package.

The Go source is shallowly embedded: machine integers become `Nat` with the
masks the source applies written out explicitly, byte buffers become
`List Nat`, strings become `String`/`List Char`, and every nondeterministic
input the source reads (clock values, random bytes, interface enumeration,
the shared clock state) is passed as an explicit argument.  Fallible Go
operations (a slice expression that can panic, a function returning an
error) are embedded with `Option`/`Except`.
-/

namespace Uid

/-- Lowercase hex digit characters, as Go `encoding/hex` emits them. -/
def hexChar (n : Nat) : Char := if n < 10 then Char.ofNat (48 + n) else Char.ofNat (87 + n)

/-- The two hex characters of one byte (Go `hex.Encode` per-byte step). -/
def hexByte (b : Nat) : List Char := [hexChar (b >>> 4), hexChar (b &&& 0xF)]

/-- Hex encoding of a byte sequence (Go `hex.Encode`). -/
def hexEncode (bs : List Nat) : List Char := (bs.map hexByte).flatten

/-- Go `bytesToUUIDString`: the hex string of the payload, grouped 8-4-4-4-12
with hyphens when `withHyphens` is true. -/
def bytesToUUIDString (b : List Nat) (withHyphens : Bool) : String :=
  let hx := hexEncode b
  if withHyphens then
    String.mk (hx.take 8 ++ '-' ::
      ((hx.drop 8).take 4 ++ '-' ::
        ((hx.drop 12).take 4 ++ '-' ::
          ((hx.drop 16).take 4 ++ '-' :: (hx.drop 20).take 12))))
  else
    String.mk hx

/-- Big-endian bytes of a 32-bit value (Go `binary.BigEndian.PutUint32`). -/
def putUint32BE (x : Nat) : List Nat :=
  [(x >>> 24) &&& 0xFF, (x >>> 16) &&& 0xFF, (x >>> 8) &&& 0xFF, x &&& 0xFF]

/-- Big-endian bytes of a 16-bit value (Go `binary.BigEndian.PutUint16`). -/
def putUint16BE (x : Nat) : List Nat := [(x >>> 8) &&& 0xFF, x &&& 0xFF]

/-- Big-endian bytes of a 64-bit value (Go `binary.BigEndian.PutUint64`). -/
def putUint64BE (x : Nat) : List Nat :=
  [(x >>> 56) &&& 0xFF, (x >>> 48) &&& 0xFF, (x >>> 40) &&& 0xFF, (x >>> 32) &&& 0xFF,
   (x >>> 24) &&& 0xFF, (x >>> 16) &&& 0xFF, (x >>> 8) &&& 0xFF, x &&& 0xFF]

/-- Go `setVersion`: clear the high nibble of byte 6 and write the version nibble. -/
def setVersion (b : List Nat) (ver : Nat) : List Nat :=
  b.set 6 ((b.getD 6 0 &&& 0x0F) ||| ((ver <<< 4) &&& 0xF0))

/-- Go `setVariantRFC4122`: set the top two bits of byte 8 to the pattern `10`. -/
def setVariantRFC4122 (b : List Nat) : List Nat :=
  b.set 8 ((b.getD 8 0 &&& 0x3F) ||| 0x80)

/-- Go constant `gregorianToUnix100ns`. -/
def gregorianToUnix100ns : Nat := 122192928000000000

/-- Go `now100ns` applied to a given `UnixNano` clock reading. -/
def now100ns (unixNano : Nat) : Nat := unixNano / 100 + gregorianToUnix100ns

/-- The process-wide mutable clock state of the engine: the last observed
100 ns timestamp and the 14-bit clock sequence. -/
structure ClockState where
  lastTime : Nat
  clockSeq : Nat
deriving Repr, DecidableEq

/-- One pass through the mutex-protected section shared by Go `newV1` and
`newV6`: bump the sequence (masked to 14 bits) when the timestamp did not
advance, then store the timestamp. -/
def clockStep (t : Nat) (s : ClockState) : ClockState :=
  { lastTime := t
    clockSeq := if t ≤ s.lastTime then (s.clockSeq + 1) &&& 0x3FFF else s.clockSeq }

/-- Go `initState`, clock-sequence branch: two random bytes read big-endian and
masked to 14 bits; on random-source failure, the low bits of `UnixNano`
truncated to `uint16` and masked to 14 bits. -/
def initClockSeq (rnd : Option (Nat × Nat)) (unixNano : Nat) : Nat :=
  match rnd with
  | some (b0, b1) => ((b0 <<< 8) ||| b1) &&& 0x3FFF
  | none => (unixNano &&& 0xFFFF) &&& 0x3FFF

/-- Go `systemNodeID`: the first 6-byte hardware address among the enumerated
interfaces; `none` when enumeration fails or no 6-byte address exists. -/
def systemNodeID (ifaces : Option (List (List Nat))) : Option (List Nat) :=
  match ifaces with
  | none => none
  | some l => l.find? (fun hw => hw.length == 6)

/-- Go `initState`, node branch: adopt the hardware id when found; otherwise
6 random bytes with the multicast bit forced on byte 0; when the random read
also fails the zero-valued array is kept unchanged. -/
def initNodeID (ifaces : Option (List (List Nat))) (rnd : Option (List Nat)) : List Nat :=
  match systemNodeID ifaces with
  | some nid => nid
  | none =>
    match rnd with
    | some r => r.set 0 (r.getD 0 0 ||| 0x01)
    | none => List.replicate 6 0

/-- Byte layout produced by Go `newV1` from a 100 ns timestamp, a clock
sequence and the cached 6-byte node id. -/
def newV1bytes (t cs : Nat) (node : List Nat) : List Nat :=
  let tl := t &&& 0xFFFFFFFF
  let tm := (t >>> 32) &&& 0xFFFF
  let th := ((t >>> 48) &&& 0x0FFF) ||| 0x1000
  putUint32BE tl ++ putUint16BE tm ++ putUint16BE th ++
    [((cs >>> 8) &&& 0x3F) ||| 0x80, cs &&& 0xFF] ++ node

/-- Byte layout produced by Go `newV6`: the 60-bit timestamp reordered so its
most significant bits lead, with the `uint32` truncation of `t >> 28` the
source performs. -/
def newV6bytes (t cs : Nat) (node : List Nat) : List Nat :=
  let th := (t >>> 28) &&& 0xFFFFFFFF
  let tm := (t >>> 12) &&& 0xFFFF
  let tl := (t &&& 0x0FFF) ||| 0x6000
  putUint32BE th ++ putUint16BE tm ++ putUint16BE tl ++
    [((cs >>> 8) &&& 0x3F) ||| 0x80, cs &&& 0xFF] ++ node

/-- Go `newV4`: 16 random bytes, or on random failure two big-endian
timestamp-derived 64-bit values, then version 4 and the variant stamped. -/
def newV4bytes (rnd : Option (List Nat)) (now1 now2 : Nat) : List Nat :=
  let b := match rnd with
    | some r => r
    | none => putUint64BE now1 ++ putUint64BE now2
  setVariantRFC4122 (setVersion b 4)

/-- The 10 random bytes Go `newV7` uses on random-source failure: `r[0]` and
`r[1]` keep their zero values, `r[2..9]` hold a big-endian `UnixNano`. -/
def v7FallbackRandom (unixNano : Nat) : List Nat := 0 :: 0 :: putUint64BE unixNano

/-- Byte layout produced by Go `newV7` from the millisecond timestamp and the
10 random bytes. -/
def newV7bytes (tsMilli : Nat) (r : List Nat) : List Nat :=
  [(tsMilli >>> 40) &&& 0xFF, (tsMilli >>> 32) &&& 0xFF, (tsMilli >>> 24) &&& 0xFF,
   (tsMilli >>> 16) &&& 0xFF, (tsMilli >>> 8) &&& 0xFF, tsMilli &&& 0xFF,
   0x70 ||| (r.getD 0 0 &&& 0x0F), r.getD 1 0,
   (r.getD 2 0 &&& 0x3F) ||| 0x80] ++ (r.drop 3).take 7

/-- The ambient process state available to every generator at call time: the
clock reading, the random stream, the shared clock state and the cached node
id.  The name-based generators receive it like every other generator; that
their body never reads it is the purity property proved below. -/
structure Env where
  unixNano : Nat
  randBytes : Option (List Nat)
  clock : ClockState
  node : List Nat

/-- Payload of Go `UuidV3Formatted` past the namespace check: the first 16
bytes of `md5(ns ++ data)` with version 3 and the variant stamped. -/
def v3payload (md5 : List Nat → List Nat) (ns data : List Nat) : List Nat :=
  setVariantRFC4122 (setVersion ((md5 (ns ++ data)).take 16) 3)

/-- Payload of Go `UuidV5Formatted` past the namespace check: the first 16
bytes of `sha1(ns ++ data)` with version 5 and the variant stamped. -/
def v5payload (sha1 : List Nat → List Nat) (ns data : List Nat) : List Nat :=
  setVariantRFC4122 (setVersion ((sha1 (ns ++ data)).take 16) 5)

/-- Go `UuidV3Formatted`.  The hash is the opaque deterministic byte transform
the spec treats as an external primitive; `e` is the ambient process state. -/
def UuidV3Formatted (e : Env) (md5 : List Nat → List Nat) (ns data : List Nat) :
    Except String String :=
  if ns.length ≠ 16 then .error "namespace must be 16 bytes"
  else .ok (bytesToUUIDString (v3payload md5 ns data) true)

/-- Go `UuidV5Formatted`. -/
def UuidV5Formatted (e : Env) (sha1 : List Nat → List Nat) (ns data : List Nat) :
    Except String String :=
  if ns.length ≠ 16 then .error "namespace must be 16 bytes"
  else .ok (bytesToUUIDString (v5payload sha1 ns data) true)

/-- Go `strings.ReplaceAll(s, "-", "")` as the generators apply it. -/
def stripHyphens (s : String) : String := String.mk (s.toList.filter (fun c => c ≠ '-'))

/-- Go `UuidV3`: the hyphen-free form of `UuidV3Formatted`. -/
def UuidV3 (e : Env) (md5 : List Nat → List Nat) (ns data : List Nat) :
    Except String String :=
  match UuidV3Formatted e md5 ns data with
  | .error msg => .error msg
  | .ok s => .ok (stripHyphens s)

/-- Go `UuidV5`: the hyphen-free form of `UuidV5Formatted`. -/
def UuidV5 (e : Env) (sha1 : List Nat → List Nat) (ns data : List Nat) :
    Except String String :=
  match UuidV5Formatted e sha1 ns data with
  | .error msg => .error msg
  | .ok s => .ok (stripHyphens s)

/-- Fixed-width base-`b` big-endian digits of `t` (the low `k` digits). -/
def digitsBE (b k t : Nat) : List Nat :=
  match k with
  | 0 => []
  | k + 1 => (t / b ^ k) % b :: digitsBE b k t

/-- Decimal digit character. -/
def decChar (n : Nat) : Char := Char.ofNat (48 + n)

/-- Modelled from the spec: the external "format current UTC time as a digit
string" primitive (Go `time.Now().UTC().Format("20060102150405.0000000")`
with the dot removed) — a fixed-width 21-digit string determined by, and
strictly monotone in, the clock reading at its rendered 100 ns resolution. -/
def timeDigits (unixNano : Nat) : List Char :=
  (digitsBE 10 21 (unixNano / 100)).map decChar

/-- Number of decimal digits of `n`, computed with structural fuel so that it
evaluates by kernel reduction; `decLen (n + 1) n = Nat.log 10 n + 1`. -/
def decLen : Nat → Nat → Nat
  | 0, _ => 0
  | fuel + 1, n => if n < 10 then 1 else decLen fuel (n / 10) + 1

/-- Decimal digits of `n`, as Go `strconv.FormatInt` and `big.Int.String`
render a nonnegative value (no padding). -/
def decimalRepr (n : Nat) : List Char :=
  (digitsBE 10 (decLen (n + 1) n) n).map decChar

/-- Go `r.String()` for `r, _ := rand.Prime(rand.Reader, 64)`: the decimal
digits of the prime, or the literal rendering of a nil `big.Int` when the
random source failed and the error was discarded. -/
def primeSuffix (p : Option Nat) : List Char :=
  match p with
  | some v => decimalRepr v
  | none => ['<', 'n', 'i', 'l', '>']

/-- Shared body of the four decimal generators: the 21-digit time string plus
the random suffix, sliced to the declared width.  The Go slice `id[0:w]`
panics when the string is shorter than `w`; that case is embedded as `none`. -/
def decimalUid (w : Nat) (unixNano : Nat) (p : Option Nat) : Option String :=
  let id := timeDigits unixNano ++ primeSuffix p
  if id.length < w then none else some (String.mk (id.take w))

/-- Go `HumanUid` (unformatted): 32 characters. -/
def HumanUid (unixNano : Nat) (p : Option Nat) : Option String := decimalUid 32 unixNano p

/-- Go `NanoUid` (unformatted): 23 characters. -/
def NanoUid (unixNano : Nat) (p : Option Nat) : Option String := decimalUid 23 unixNano p

/-- Go `MicroUid` (unformatted): 20 characters. -/
def MicroUid (unixNano : Nat) (p : Option Nat) : Option String := decimalUid 20 unixNano p

/-- Go `SecUid` (unformatted): 14 characters. -/
def SecUid (unixNano : Nat) (p : Option Nat) : Option String := decimalUid 14 unixNano p

/-- Go `Timestamp`: `strconv.FormatInt` of the Unix second count. -/
def Timestamp (unixNano : Nat) : String := String.mk (decimalRepr (unixNano / 1000000000))

/-- Go `TimestampMicro`. -/
def TimestampMicro (unixNano : Nat) : String := String.mk (decimalRepr (unixNano / 1000))

/-- Go `TimestampNano`. -/
def TimestampNano (unixNano : Nat) : String := String.mk (decimalRepr unixNano)

/-- Loop tail of Go `formatWithHyphens`: each group after the first is
preceded by a hyphen, the loop breaks once the source is exhausted, and any
remainder after the last group is appended. -/
def formatGroups (s : List Char) (groups : List Nat) : List Char :=
  match groups with
  | [] => s
  | g :: gs => '-' :: (s.take g ++ (if s.length ≤ g then [] else formatGroups (s.drop g) gs))

/-- Go `formatWithHyphens`. -/
def formatWithHyphens (s : List Char) (groups : List Nat) : List Char :=
  match groups with
  | [] => s
  | g :: gs => s.take g ++ (if s.length ≤ g then [] else formatGroups (s.drop g) gs)

/-- Lexicographic order on embedded (timestamp, sequence) pairs. -/
def pairLt (a b : Nat × Nat) : Prop := a.1 < b.1 ∨ (a.1 = b.1 ∧ a.2 < b.2)

instance (a b : Nat × Nat) : Decidable (pairLt a b) := by
  unfold pairLt; infer_instance

/-- The (timestamp, clock sequence) pair stored in a v1 payload. -/
def extractV1pair (b : List Nat) : Nat × Nat :=
  ((b.getD 6 0 &&& 0x0F) * 2 ^ 56 + b.getD 7 0 * 2 ^ 48 +
    (b.getD 4 0 * 2 ^ 40 + b.getD 5 0 * 2 ^ 32) +
    (b.getD 0 0 * 2 ^ 24 + b.getD 1 0 * 2 ^ 16 + b.getD 2 0 * 2 ^ 8 + b.getD 3 0),
   (b.getD 8 0 &&& 0x3F) * 2 ^ 8 + b.getD 9 0)

/-- The (timestamp, clock sequence) pair stored in a v6 payload. -/
def extractV6pair (b : List Nat) : Nat × Nat :=
  ((b.getD 0 0 * 2 ^ 24 + b.getD 1 0 * 2 ^ 16 + b.getD 2 0 * 2 ^ 8 + b.getD 3 0) * 2 ^ 28 +
    (b.getD 4 0 * 2 ^ 8 + b.getD 5 0) * 2 ^ 12 +
    ((b.getD 6 0 &&& 0x0F) * 2 ^ 8 + b.getD 7 0),
   (b.getD 8 0 &&& 0x3F) * 2 ^ 8 + b.getD 9 0)

/-- Count of digit slots in a render template. -/
def noneCount : List (Option Char) → Nat
  | [] => 0
  | some _ :: tm => noneCount tm
  | none :: tm => noneCount tm + 1

/-- Interleave fixed characters and rendered digits according to a template:
`some c` emits the fixed character `c`, `none` consumes one digit. -/
def fillTemplate (g : Nat → Char) : List (Option Char) → List Nat → List Char
  | [], _ => []
  | some c :: tm, ds => c :: fillTemplate g tm ds
  | none :: _, [] => []
  | none :: tm, d :: ds => g d :: fillTemplate g tm ds

/-- Character template of the first 19 characters of a hyphenated v6 string:
twelve timestamp nibbles with a hyphen after the 8th and the 12th, then the
fixed version digit 6, the three low timestamp nibbles, and a hyphen. -/
def v6TimeTemplate : List (Option Char) :=
  [none, none, none, none, none, none, none, none, some '-', none, none, none, none,
   some '-', some '6', none, none, none, some '-']

/-- The last 17 characters of a hyphenated v6 (or v1) string: the two clock
sequence bytes, a hyphen, and the twelve node characters. -/
def v6Tail (cs : Nat) (node : List Nat) : List Char :=
  hexByte (((cs >>> 8) &&& 0x3F) ||| 0x80) ++ hexByte (cs &&& 0xFF) ++
    '-' :: (hexEncode node).take 12

/-- The numeric value denoted by a big-endian digit list. -/
def digitsVal (l : List Nat) : Nat := l.foldl (fun a d => 10 * a + d) 0

/-- The digit value of a decimal character. -/
def charVal (c : Char) : Nat := c.toNat - 48

/-- The numeric value denoted by a decimal character list. -/
def charsVal (l : List Char) : Nat := l.foldl (fun a c => 10 * a + charVal c) 0

/-- The numeric value denoted by a decimal string. -/
def strVal (s : String) : Nat := charsVal s.toList

/-- Every character of the string is a decimal digit. -/
def isDigitStr (s : String) : Prop := ∀ c ∈ s.toList, 48 ≤ c.toNat ∧ c.toNat ≤ 57

/-- The digit list a decimal generator of width `w` slices out of the
time-and-prime digit string. -/
def uidDigits (w t p : Nat) : List Nat :=
  (digitsBE 10 21 (t / 100) ++ digitsBE 10 (decLen (p + 1) p) p).take w

/-! ## Bit-arithmetic toolkit -/

theorem and16383 (x : Nat) : x &&& 16383 = x % 16384 := by
  have h := Nat.and_pow_two_sub_one_eq_mod x 14
  norm_num at h
  exact h

theorem and65535 (x : Nat) : x &&& 65535 = x % 65536 := by
  have h := Nat.and_pow_two_sub_one_eq_mod x 16
  norm_num at h
  exact h

theorem and4095 (x : Nat) : x &&& 4095 = x % 4096 := by
  have h := Nat.and_pow_two_sub_one_eq_mod x 12
  norm_num at h
  exact h

theorem and255 (x : Nat) : x &&& 255 = x % 256 := by
  have h := Nat.and_pow_two_sub_one_eq_mod x 8
  norm_num at h
  exact h

theorem and63 (x : Nat) : x &&& 63 = x % 64 := by
  have h := Nat.and_pow_two_sub_one_eq_mod x 6
  norm_num at h
  exact h

theorem and15 (x : Nat) : x &&& 15 = x % 16 := by
  have h := Nat.and_pow_two_sub_one_eq_mod x 4
  norm_num at h
  exact h

theorem andFFFFFFFF (x : Nat) : x &&& 4294967295 = x % 4294967296 := by
  have h := Nat.and_pow_two_sub_one_eq_mod x 32
  norm_num at h
  exact h

theorem shiftr (x k : Nat) : x >>> k = x / 2 ^ k := Nat.shiftRight_eq_div_pow x k

theorem lor_high (n : Nat) : ∀ z m : Nat, z < 2 ^ n → z ||| m * 2 ^ n = z + m * 2 ^ n := by
  induction n with
  | zero =>
    intro z m hz
    have hz0 : z = 0 := by omega
    subst hz0
    simp
  | succ n ih =>
    intro z m hz
    have hm2 : m * 2 ^ (n + 1) = 2 * (m * 2 ^ n) := by
      rw [pow_succ]; ring
    have hz2 : z < 2 ^ n * 2 := by
      rw [← pow_succ]; exact hz
    have hdiv : (z ||| m * 2 ^ (n + 1)) / 2 = z / 2 + m * 2 ^ n := by
      have h2 : m * 2 ^ (n + 1) / 2 = m * 2 ^ n := by omega
      rw [Nat.or_div_two, h2]
      exact ih (z / 2) m (by omega)
    have hmod : (z ||| m * 2 ^ (n + 1)) % 2 = z % 2 := by
      have heven : m * 2 ^ (n + 1) % 2 = 0 := by omega
      rcases Nat.mod_two_eq_zero_or_one z with h | h
      · have hne : ¬((z ||| m * 2 ^ (n + 1)) % 2 = 1) := by
          rw [Nat.or_mod_two_eq_one]
          omega
        omega
      · have heq : (z ||| m * 2 ^ (n + 1)) % 2 = 1 := by
          rw [Nat.or_mod_two_eq_one]
          omega
        omega
    have hsplit := Nat.div_add_mod (z ||| m * 2 ^ (n + 1)) 2
    have hzsplit := Nat.div_add_mod z 2
    omega

theorem or4096 (z : Nat) (h : z < 4096) : z ||| 4096 = z + 4096 := by
  have := lor_high 12 z 1 (by norm_num; omega)
  norm_num at this
  exact this

theorem or24576 (z : Nat) (h : z < 4096) : z ||| 24576 = z + 24576 := by
  have := lor_high 12 z 6 (by norm_num; omega)
  norm_num at this
  exact this

theorem or128 (z : Nat) (h : z < 64) : z ||| 128 = z + 128 := by
  have := lor_high 6 z 2 (by norm_num; omega)
  norm_num at this
  exact this

theorem or112 (z : Nat) (h : z < 16) : 112 ||| z = 112 + z := by
  have := lor_high 4 z 7 (by norm_num; omega)
  rw [Nat.lor_comm, Nat.add_comm]
  norm_num at this
  exact this

theorem lor_one_odd (x : Nat) : (x ||| 1) % 2 = 1 := by
  have h := Nat.testBit_lor x 1 0
  simpa [Nat.testBit_zero] using h

/-! ## Lexicographic-order toolkit -/

theorem lex_append {α : Type} {r : α → α → Prop} :
    ∀ {p1 p2 : List α}, List.Lex r p1 p2 → p1.length = p2.length →
      ∀ s1 s2 : List α, List.Lex r (p1 ++ s1) (p2 ++ s2) := by
  intro p1 p2 hlex
  induction hlex with
  | nil => intro hlen; simp at hlen
  | cons h ih =>
    intro hlen s1 s2
    exact List.Lex.cons (ih (by simpa using hlen) s1 s2)
  | rel h => intro _ s1 s2; exact List.Lex.rel h

theorem lex_map (g : Nat → Char) (B : Nat) (hg : ∀ a b, a < b → b < B → g a < g b) :
    ∀ {n1 n2 : List Nat}, List.Lex (· < ·) n1 n2 → (∀ x ∈ n2, x < B) →
      List.Lex (· < ·) (n1.map g) (n2.map g) := by
  intro n1 n2 hlex
  induction hlex with
  | nil => intro _; exact List.Lex.nil
  | cons h ih =>
    intro hb
    exact List.Lex.cons (ih (fun x hx => hb x (List.mem_cons_of_mem _ hx)))
  | @rel a1 l1 a2 l2 h =>
    intro hb
    exact List.Lex.rel (hg a1 a2 h (hb a2 (List.mem_cons_self a2 l2)))

theorem string_lt_of_lex {l1 l2 : List Char} (h : List.Lex (· < ·) l1 l2) :
    String.mk l1 < String.mk l2 := by
  rw [String.lt_iff_toList_lt]
  exact h

theorem digitsBE_length (b : Nat) : ∀ k t : Nat, (digitsBE b k t).length = k := by
  intro k
  induction k with
  | zero => intro t; rfl
  | succ k ih => intro t; show (digitsBE b k t).length + 1 = k + 1; rw [ih]

theorem digitsBE_lt (b : Nat) (hb : 0 < b) : ∀ k t : Nat, ∀ x ∈ digitsBE b k t, x < b := by
  intro k
  induction k with
  | zero => intro t x hx; simp [digitsBE] at hx
  | succ k ih =>
    intro t x hx
    rcases List.mem_cons.mp hx with h | h
    · subst h; exact Nat.mod_lt _ hb
    · exact ih t x h

theorem digitsBE_lex (b : Nat) (hb : 1 < b) :
    ∀ k t1 t2 : Nat, t1 % b ^ k < t2 % b ^ k →
      List.Lex (· < ·) (digitsBE b k t1) (digitsBE b k t2) := by
  intro k
  induction k with
  | zero => intro t1 t2 h; exact absurd h (by rw [pow_zero]; omega)
  | succ k ih =>
    intro t1 t2 h
    have hpow : (0 : Nat) < b ^ k := Nat.pos_pow_of_pos k (by omega)
    have hsucc : (b : Nat) ^ (k + 1) = b ^ k * b := pow_succ b k
    have he1 : t1 % b ^ (k + 1) = t1 % b ^ k + b ^ k * (t1 / b ^ k % b) := by
      rw [hsucc]; exact Nat.mod_mul
    have he2 : t2 % b ^ (k + 1) = t2 % b ^ k + b ^ k * (t2 / b ^ k % b) := by
      rw [hsucc]; exact Nat.mod_mul
    have hm1 : t1 % b ^ k < b ^ k := Nat.mod_lt _ hpow
    have hm2 : t2 % b ^ k < b ^ k := Nat.mod_lt _ hpow
    rcases Nat.lt_trichotomy (t1 / b ^ k % b) (t2 / b ^ k % b) with hlt | heq | hgt
    · exact List.Lex.rel hlt
    · show List.Lex (· < ·) (t1 / b ^ k % b :: digitsBE b k t1)
        (t2 / b ^ k % b :: digitsBE b k t2)
      rw [heq]
      refine List.Lex.cons (ih t1 t2 ?_)
      rw [heq] at he1
      omega
    · exfalso
      have hmul2 : b ^ k * (t2 / b ^ k % b) + b ^ k ≤ b ^ k * (t1 / b ^ k % b) := by
        have h1 : b ^ k * (t2 / b ^ k % b + 1) ≤ b ^ k * (t1 / b ^ k % b) :=
          Nat.mul_le_mul_left (b ^ k) (show t2 / b ^ k % b + 1 ≤ t1 / b ^ k % b by omega)
        rw [Nat.mul_succ] at h1
        exact h1
      have hrev : t2 % b ^ (k + 1) < t1 % b ^ (k + 1) := by
        rw [he1, he2]
        calc t2 % b ^ k + b ^ k * (t2 / b ^ k % b)
            < b ^ k + b ^ k * (t2 / b ^ k % b) := by
              exact Nat.add_lt_add_right hm2 _
          _ ≤ t1 % b ^ k + b ^ k * (t1 / b ^ k % b) := by
              have hz : 0 ≤ t1 % b ^ k := Nat.zero_le _
              linarith [hmul2]
      exact absurd hrev (Nat.lt_asymm h)

theorem digitsBE_take (b : Nat) :
    ∀ j k t : Nat, j ≤ k → (digitsBE b k t).take j = digitsBE b j (t / b ^ (k - j)) := by
  intro j
  induction j with
  | zero => intro k t h; rfl
  | succ j ih =>
    intro k t h
    cases k with
    | zero => omega
    | succ m =>
      have hjm : j ≤ m := by omega
      have hmj : m + 1 - (j + 1) = m - j := by omega
      show ((t / b ^ m) % b :: digitsBE b m t).take (j + 1) =
        digitsBE b (j + 1) (t / b ^ (m + 1 - (j + 1)))
      rw [List.take_succ_cons, ih m t hjm, hmj]
      show _ :: _ = (t / b ^ (m - j) / b ^ j) % b :: digitsBE b j (t / b ^ (m - j))
      have hhead : t / b ^ m = t / b ^ (m - j) / b ^ j := by
        rw [Nat.div_div_eq_div_mul, ← pow_add]
        have : m - j + j = m := by omega
        rw [this]
      rw [hhead]

theorem digitsVal_cons (d : Nat) (tl : List Nat) :
    digitsVal (d :: tl) = d * 10 ^ tl.length + digitsVal tl := by
  have haux : ∀ (l : List Nat) (a : Nat),
      l.foldl (fun x d => 10 * x + d) a = a * 10 ^ l.length + digitsVal l := by
    intro l
    induction l with
    | nil => intro a; simp [digitsVal]
    | cons x tl2 ih =>
      intro a
      show tl2.foldl _ (10 * a + x) = a * 10 ^ (tl2.length + 1) + digitsVal (x :: tl2)
      rw [ih (10 * a + x)]
      have hx : digitsVal (x :: tl2) = x * 10 ^ tl2.length + digitsVal tl2 := by
        show tl2.foldl _ (10 * 0 + x) = _
        rw [ih (10 * 0 + x)]
        ring
      rw [hx]
      ring
  show tl.foldl _ (10 * 0 + d) = d * 10 ^ tl.length + digitsVal tl
  rw [haux tl (10 * 0 + d)]
  ring

theorem digitsVal_lt (l : List Nat) (h : ∀ x ∈ l, x < 10) :
    digitsVal l < 10 ^ l.length := by
  induction l with
  | nil => show (0 : Nat) < 1; omega
  | cons d tl ih =>
    rw [digitsVal_cons]
    have hd : d < 10 := h d (List.mem_cons_self d tl)
    have hv : digitsVal tl < 10 ^ tl.length := ih (fun x hx => h x (List.mem_cons_of_mem d hx))
    have hmul : d * 10 ^ tl.length ≤ 9 * 10 ^ tl.length :=
      Nat.mul_le_mul_right _ (by omega)
    have hpow : (10 : Nat) ^ (d :: tl).length = 10 * 10 ^ tl.length := by
      show (10 : Nat) ^ (tl.length + 1) = _
      rw [pow_succ]; ring
    omega

theorem digitsVal_lt_of_lex :
    ∀ {l1 l2 : List Nat}, List.Lex (· < ·) l1 l2 → l1.length = l2.length →
      (∀ x ∈ l1, x < 10) → digitsVal l1 < digitsVal l2 := by
  intro l1 l2 hlex
  induction hlex with
  | nil => intro hlen; simp at hlen
  | @cons a t1 t2 h ih =>
    intro hlen hd
    rw [digitsVal_cons, digitsVal_cons]
    have hlen2 : t1.length = t2.length := by simpa using hlen
    rw [← hlen2]
    have hv : digitsVal t1 < digitsVal t2 :=
      ih hlen2 (fun x hx => hd x (List.mem_cons_of_mem a hx))
    omega
  | @rel a1 t1 a2 t2 h =>
    intro hlen hd
    rw [digitsVal_cons, digitsVal_cons]
    have hlen2 : t1.length = t2.length := by simpa using hlen
    rw [← hlen2]
    have hv1 : digitsVal t1 < 10 ^ t1.length :=
      digitsVal_lt t1 (fun x hx => hd x (List.mem_cons_of_mem a1 hx))
    have hmul : (a1 + 1) * 10 ^ t1.length ≤ a2 * 10 ^ t1.length :=
      Nat.mul_le_mul_right _ (by omega)
    have hexp : (a1 + 1) * 10 ^ t1.length = a1 * 10 ^ t1.length + 10 ^ t1.length := by ring
    omega

theorem decChar_mono : ∀ b : Nat, b < 10 → ∀ a : Nat, a < b → decChar a < decChar b := by decide

theorem hexChar_mono : ∀ b : Nat, b < 16 → ∀ a : Nat, a < b → hexChar a < hexChar b := by decide

theorem decChar_digit : ∀ d : Nat, d < 10 → 48 ≤ (decChar d).toNat ∧ (decChar d).toNat ≤ 57 := by
  decide

theorem charVal_decChar : ∀ d : Nat, d < 10 → charVal (decChar d) = d := by decide

theorem charsVal_map : ∀ ds : List Nat, (∀ d ∈ ds, d < 10) →
    charsVal (ds.map decChar) = digitsVal ds := by
  have haux : ∀ (ds : List Nat) (a : Nat), (∀ d ∈ ds, d < 10) →
      (ds.map decChar).foldl (fun x c => 10 * x + charVal c) a =
        ds.foldl (fun x d => 10 * x + d) a := by
    intro ds
    induction ds with
    | nil => intro a _; rfl
    | cons d tl ih =>
      intro a hb
      show (tl.map decChar).foldl _ (10 * a + charVal (decChar d)) = tl.foldl _ (10 * a + d)
      rw [charVal_decChar d (hb d (List.mem_cons_self d tl))]
      exact ih _ (fun x hx => hb x (List.mem_cons_of_mem d hx))
  intro ds hb
  exact haux ds 0 hb

theorem decLen_eq_log : ∀ fuel n : Nat, n < fuel → decLen fuel n = Nat.log 10 n + 1 := by
  intro fuel
  induction fuel with
  | zero => intro n h; omega
  | succ f ih =>
    intro n h
    show (if n < 10 then 1 else decLen f (n / 10) + 1) = Nat.log 10 n + 1
    by_cases h10 : n < 10
    · rw [if_pos h10, Nat.log_of_lt h10]
    · rw [if_neg h10]
      have hdiv : n / 10 < f := by
        have h1 : n / 10 < n := Nat.div_lt_self (by omega) (by norm_num)
        omega
      rw [ih (n / 10) hdiv]
      rw [show Nat.log 10 n = Nat.log 10 (n / 10) + 1 from
        Nat.log_of_one_lt_of_le (by norm_num) (by omega)]

theorem fillTemplate_length_eq (g : Nat → Char) :
    ∀ (tm : List (Option Char)) (n1 n2 : List Nat), n1.length = n2.length →
      (fillTemplate g tm n1).length = (fillTemplate g tm n2).length := by
  intro tm
  induction tm with
  | nil => intro n1 n2 _; rfl
  | cons o tm ih =>
    intro n1 n2 hlen
    cases o with
    | some c =>
      show (fillTemplate g tm n1).length + 1 = (fillTemplate g tm n2).length + 1
      rw [ih n1 n2 hlen]
    | none =>
      cases n1 with
      | nil =>
        cases n2 with
        | nil => rfl
        | cons d2 ds2 => simp at hlen
      | cons d1 ds1 =>
        cases n2 with
        | nil => simp at hlen
        | cons d2 ds2 =>
          show (fillTemplate g tm ds1).length + 1 = (fillTemplate g tm ds2).length + 1
          rw [ih ds1 ds2 (by simpa using hlen)]

theorem fillTemplate_lex (g : Nat → Char) (B : Nat)
    (hg : ∀ a b, a < b → b < B → g a < g b) :
    ∀ (tm : List (Option Char)) (n1 n2 : List Nat),
      List.Lex (· < ·) n1 n2 → n1.length = n2.length → n1.length ≤ noneCount tm →
      (∀ x ∈ n2, x < B) →
      List.Lex (· < ·) (fillTemplate g tm n1) (fillTemplate g tm n2) := by
  intro tm
  induction tm with
  | nil =>
    intro n1 n2 hlex hlen hcount _
    have hc : noneCount ([] : List (Option Char)) = 0 := rfl
    have h1 : n1 = [] := List.length_eq_zero.mp (by omega)
    subst h1
    have h2 : n2 = [] := List.length_eq_zero.mp (by simpa using hlen.symm)
    subst h2
    cases hlex
  | cons o tm ih =>
    intro n1 n2 hlex hlen hcount hb
    cases o with
    | some c => exact List.Lex.cons (ih n1 n2 hlex hlen hcount hb)
    | none =>
      cases n1 with
      | nil =>
        have h2 : n2 = [] := List.length_eq_zero.mp (by simpa using hlen.symm)
        subst h2
        cases hlex
      | cons d1 ds1 =>
        cases n2 with
        | nil => simp at hlen
        | cons d2 ds2 =>
          cases hlex with
          | cons h =>
            refine List.Lex.cons (ih ds1 ds2 h (by simpa using hlen) ?_
              (fun x hx => hb x (List.mem_cons_of_mem _ hx)))
            have : noneCount (none :: tm) = noneCount tm + 1 := rfl
            simp only [List.length_cons] at hcount ⊢
            omega
          | rel h =>
            exact List.Lex.rel (hg d1 d2 h (hb d2 (List.mem_cons_self d2 ds2)))

/-! ## C10: the clock sequence is always a 14-bit value -/

/-- C10: the shared clock-sequence counter always lies in [0, 2^14): both
initialization branches mask the initial value to 14 bits, the per-generation
update preserves the bound, and the sequence field encoded in bytes 8/9 of
any v1 or v6 payload is below 16384. -/
theorem clockSeq_always_14bit (rb : Option (Nat × Nat)) (nNs t : Nat) (s : ClockState)
    (hs : s.clockSeq < 16384) (cs : Nat) (node : List Nat) :
    initClockSeq rb nNs < 16384 ∧
    (clockStep t s).clockSeq < 16384 ∧
    (extractV1pair (newV1bytes t cs node)).2 < 16384 ∧
    (extractV6pair (newV6bytes t cs node)).2 < 16384 := by
  refine ⟨?_, ?_, ?_, ?_⟩
  · cases rb with
    | some b => exact Nat.lt_of_le_of_lt Nat.and_le_right (by norm_num)
    | none => exact Nat.lt_of_le_of_lt Nat.and_le_right (by norm_num)
  · unfold clockStep
    simp only
    split
    · exact Nat.lt_of_le_of_lt Nat.and_le_right (by norm_num)
    · exact hs
  · have h1 : ((((cs >>> 8) &&& 63) ||| 128) &&& 63) ≤ 63 := Nat.and_le_right
    have h2 : cs &&& 255 ≤ 255 := Nat.and_le_right
    simp only [newV1bytes, putUint32BE, putUint16BE, extractV1pair, List.cons_append,
      List.nil_append, List.getD_cons_succ, List.getD_cons_zero]
    omega
  · have h1 : ((((cs >>> 8) &&& 63) ||| 128) &&& 63) ≤ 63 := Nat.and_le_right
    have h2 : cs &&& 255 ≤ 255 := Nat.and_le_right
    simp only [newV6bytes, putUint32BE, putUint16BE, extractV6pair, List.cons_append,
      List.nil_append, List.getD_cons_succ, List.getD_cons_zero]
    omega

/-- Witness for C10 at concrete inputs. -/
theorem clockSeq_always_14bit_witness :
    initClockSeq none 0 < 16384 ∧
    (clockStep 0 ⟨0, 0⟩).clockSeq < 16384 ∧
    (extractV1pair (newV1bytes 0 0 [])).2 < 16384 ∧
    (extractV6pair (newV6bytes 0 0 [])).2 < 16384 :=
  clockSeq_always_14bit none 0 0 ⟨0, 0⟩ (by decide) 0 []

/-! ## C8: node-identity resolution -/

theorem find?_append_none {α : Type} {p : α → Bool} (pre l : List α)
    (h : ∀ x ∈ pre, p x = false) : (pre ++ l).find? p = l.find? p := by
  induction pre with
  | nil => simp
  | cons a tl ih =>
    have ha : p a = false := h a (by simp)
    simp only [List.cons_append, List.find?]
    rw [ha]
    exact ih fun x hx => h x (by simp [hx])

/-- C8: when no 6-byte hardware identifier is found (including when interface
enumeration itself fails), the node id is the 6 random bytes with the
least-significant bit of the first byte forced to 1; when a 6-byte hardware
identifier exists, the first one encountered is adopted unchanged; and
enumeration failure behaves exactly like an empty enumeration. -/
theorem nodeID_resolution (pre rest : List (List Nat)) (hw : List Nat)
    (hpre : ∀ x ∈ pre, x.length ≠ 6) (hhw : hw.length = 6)
    (ifl : List (List Nat)) (hifl : ∀ x ∈ ifl, x.length ≠ 6)
    (r : List Nat) (hr : r.length = 6) (rnd rnd2 : Option (List Nat)) :
    initNodeID (some (pre ++ hw :: rest)) rnd = hw ∧
    initNodeID (some ifl) (some r) = r.set 0 (r.getD 0 0 ||| 1) ∧
    (initNodeID (some ifl) (some r)).getD 0 0 = (r.getD 0 0) ||| 1 ∧
    ((initNodeID (some ifl) (some r)).getD 0 0) % 2 = 1 ∧
    (initNodeID (some ifl) (some r)).drop 1 = r.drop 1 ∧
    initNodeID none rnd2 = initNodeID (some ifl) rnd2 := by
  have hfind : systemNodeID (some (pre ++ hw :: rest)) = some hw := by
    show (pre ++ hw :: rest).find? (fun hw => hw.length == 6) = some hw
    rw [find?_append_none pre (hw :: rest)
      (fun x hx => by simp only [beq_eq_false_iff_ne]; exact hpre x hx)]
    simp [List.find?, hhw]
  have hnone : systemNodeID (some ifl) = none := by
    show ifl.find? (fun hw => hw.length == 6) = none
    rw [List.find?_eq_none]
    intro x hx
    simp only [beq_iff_eq]
    exact hifl x hx
  obtain ⟨r0, rtl, rfl⟩ : ∃ r0 rtl, r = r0 :: rtl := by
    cases r with
    | nil => simp at hr
    | cons a b => exact ⟨a, b, rfl⟩
  refine ⟨?_, ?_, ?_, ?_, ?_, ?_⟩
  · unfold initNodeID
    rw [hfind]
  · unfold initNodeID
    rw [hnone]
  · unfold initNodeID
    rw [hnone]
    rfl
  · unfold initNodeID
    rw [hnone]
    exact lor_one_odd r0
  · unfold initNodeID
    rw [hnone]
    rfl
  · unfold initNodeID
    rw [hnone]
    rfl

/-! ## C1: (timestamp, sequence) ordering of consecutive v1/v6 generations -/

theorem extractV1_eq (t cs : Nat) (node : List Nat) (ht : t < 2 ^ 60) (hcs : cs < 16384) :
    extractV1pair (newV1bytes t cs node) = (t, cs) := by
  simp only [extractV1pair, newV1bytes, putUint32BE, putUint16BE, List.cons_append,
    List.nil_append, List.getD_cons_succ, List.getD_cons_zero]
  rw [Prod.mk.injEq]
  constructor
  · simp only [andFFFFFFFF, and65535, and4095, and255, and15, shiftr]
    rw [or4096 _ (Nat.mod_lt _ (by norm_num))]
    norm_num at ht ⊢
    omega
  · simp only [and63, and255, shiftr]
    rw [or128 _ (Nat.mod_lt _ (by norm_num))]
    norm_num
    omega

theorem extractV6_eq (t cs : Nat) (node : List Nat) (ht : t < 2 ^ 60) (hcs : cs < 16384) :
    extractV6pair (newV6bytes t cs node) = (t, cs) := by
  simp only [extractV6pair, newV6bytes, putUint32BE, putUint16BE, List.cons_append,
    List.nil_append, List.getD_cons_succ, List.getD_cons_zero]
  rw [Prod.mk.injEq]
  constructor
  · simp only [andFFFFFFFF, and65535, and4095, and255, and15, shiftr]
    rw [or24576 _ (Nat.mod_lt _ (by norm_num))]
    norm_num at ht ⊢
    omega
  · simp only [and63, and255, shiftr]
    rw [or128 _ (Nat.mod_lt _ (by norm_num))]
    norm_num
    omega

/-- C1 counterexample: with the clock sequence at 2^14 - 1 and the 100 ns
timestamp not advancing, the next generation wraps the counter to 0, so the
embedded (timestamp, sequence) pair of the later identifier is NOT strictly
greater than that of the earlier one. -/
theorem clock_pair_wrap_cex :
    (5 : Nat) ≤ 5 ∧
    (clockStep 5 ⟨5, 16382⟩).clockSeq = 16383 ∧
    (clockStep 5 (clockStep 5 ⟨5, 16382⟩)).clockSeq = 0 ∧
    ¬ pairLt
      (extractV1pair (newV1bytes 5 (clockStep 5 ⟨5, 16382⟩).clockSeq [0, 0, 0, 0, 0, 0]))
      (extractV1pair
        (newV1bytes 5 (clockStep 5 (clockStep 5 ⟨5, 16382⟩)).clockSeq [0, 0, 0, 0, 0, 0])) ∧
    ¬ pairLt
      (extractV6pair (newV6bytes 5 (clockStep 5 ⟨5, 16382⟩).clockSeq [0, 0, 0, 0, 0, 0]))
      (extractV6pair
        (newV6bytes 5 (clockStep 5 (clockStep 5 ⟨5, 16382⟩)).clockSeq [0, 0, 0, 0, 0, 0])) := by
  decide

/-- C1 (amended): for two temporally consecutive v1/v6 generations, if the
second 100 ns reading is at least the first (and the pair does not hit the
2^14 sequence wrap, i.e. the timestamp advances or the sequence after the
first call is below 2^14 - 1), the embedded (timestamp, sequence) pair
strictly increases lexicographically; and whenever the new timestamp is less
than or equal to the stored one the counter is incremented modulo 2^14. -/
theorem clock_pair_strictly_increases (s0 : ClockState) (t1 t2 : Nat) (node : List Nat)
    (hcs0 : s0.clockSeq < 16384)
    (h12 : t1 ≤ t2) (ht2 : t2 < 2 ^ 60)
    (hnowrap : t1 < t2 ∨ (clockStep t1 s0).clockSeq < 16383) :
    pairLt (t1, (clockStep t1 s0).clockSeq)
      (t2, (clockStep t2 (clockStep t1 s0)).clockSeq) ∧
    extractV1pair (newV1bytes t1 (clockStep t1 s0).clockSeq node) =
      (t1, (clockStep t1 s0).clockSeq) ∧
    extractV6pair (newV6bytes t1 (clockStep t1 s0).clockSeq node) =
      (t1, (clockStep t1 s0).clockSeq) ∧
    extractV1pair (newV1bytes t2 (clockStep t2 (clockStep t1 s0)).clockSeq node) =
      (t2, (clockStep t2 (clockStep t1 s0)).clockSeq) ∧
    extractV6pair (newV6bytes t2 (clockStep t2 (clockStep t1 s0)).clockSeq node) =
      (t2, (clockStep t2 (clockStep t1 s0)).clockSeq) ∧
    (∀ (t : Nat) (s : ClockState), t ≤ s.lastTime →
      (clockStep t s).clockSeq = (s.clockSeq + 1) % 16384) := by
  have hcs1 : (clockStep t1 s0).clockSeq < 16384 := by
    unfold clockStep
    simp only
    split
    · rw [and16383]; exact Nat.mod_lt _ (by norm_num)
    · exact hcs0
  have hcs2 : (clockStep t2 (clockStep t1 s0)).clockSeq < 16384 := by
    unfold clockStep
    simp only
    split
    · rw [and16383]; exact Nat.mod_lt _ (by norm_num)
    · exact hcs1
  have ht1 : t1 < 2 ^ 60 := lt_of_le_of_lt h12 ht2
  refine ⟨?_, extractV1_eq t1 _ node ht1 hcs1, extractV6_eq t1 _ node ht1 hcs1,
    extractV1_eq t2 _ node ht2 hcs2, extractV6_eq t2 _ node ht2 hcs2, ?_⟩
  · rcases Nat.lt_or_ge t1 t2 with hlt | hge
    · exact Or.inl hlt
    · have heq : t2 = t1 := by omega
      subst heq
      have hwrap : (clockStep t2 s0).clockSeq < 16383 := by
        rcases hnowrap with h | h
        · omega
        · exact h
      right
      refine ⟨rfl, ?_⟩
      show (clockStep t2 s0).clockSeq <
        (if t2 ≤ (clockStep t2 s0).lastTime then ((clockStep t2 s0).clockSeq + 1) &&& 16383
          else (clockStep t2 s0).clockSeq)
      have hlast : (clockStep t2 s0).lastTime = t2 := rfl
      rw [hlast, if_pos (le_refl t2), and16383]
      omega
  · intro t s hts
    unfold clockStep
    simp only
    rw [if_pos hts, and16383]

/-- Witness for C1's amended theorem at concrete inputs. -/
theorem clock_pair_strictly_increases_witness :
    pairLt (7, (clockStep 7 ⟨7, 3⟩).clockSeq)
      (7, (clockStep 7 (clockStep 7 ⟨7, 3⟩)).clockSeq) ∧
    extractV1pair (newV1bytes 7 (clockStep 7 ⟨7, 3⟩).clockSeq [1, 2, 3, 4, 5, 6]) =
      (7, (clockStep 7 ⟨7, 3⟩).clockSeq) ∧
    extractV6pair (newV6bytes 7 (clockStep 7 ⟨7, 3⟩).clockSeq [1, 2, 3, 4, 5, 6]) =
      (7, (clockStep 7 ⟨7, 3⟩).clockSeq) ∧
    extractV1pair (newV1bytes 7 (clockStep 7 (clockStep 7 ⟨7, 3⟩)).clockSeq [1, 2, 3, 4, 5, 6]) =
      (7, (clockStep 7 (clockStep 7 ⟨7, 3⟩)).clockSeq) ∧
    extractV6pair (newV6bytes 7 (clockStep 7 (clockStep 7 ⟨7, 3⟩)).clockSeq [1, 2, 3, 4, 5, 6]) =
      (7, (clockStep 7 (clockStep 7 ⟨7, 3⟩)).clockSeq) ∧
    (∀ (t : Nat) (s : ClockState), t ≤ s.lastTime →
      (clockStep t s).clockSeq = (s.clockSeq + 1) % 16384) :=
  clock_pair_strictly_increases ⟨7, 3⟩ 7 7 [1, 2, 3, 4, 5, 6] (by decide) (by decide)
    (by norm_num) (Or.inr (by decide))

/-! ## C2: version nibble and variant bits -/

theorem getD_set_self (l : List Nat) : ∀ i v : Nat, i < l.length → (l.set i v).getD i 0 = v := by
  induction l with
  | nil => intro i v h; simp at h
  | cons a tl ih =>
    intro i v h
    cases i with
    | zero => rfl
    | succ j =>
      show (tl.set j v).getD j 0 = v
      exact ih j v (by simpa using Nat.lt_of_succ_lt_succ h)

theorem getD_set_other (l : List Nat) : ∀ i j v : Nat, i ≠ j → (l.set i v).getD j 0 = l.getD j 0 := by
  induction l with
  | nil => intro i j v _; cases i <;> rfl
  | cons a tl ih =>
    intro i j v hne
    cases i with
    | zero =>
      cases j with
      | zero => exact absurd rfl hne
      | succ k => rfl
    | succ i2 =>
      cases j with
      | zero => rfl
      | succ k =>
        show (tl.set i2 v).getD k 0 = tl.getD k 0
        exact ih i2 k v (fun h => hne (by rw [h]))

theorem set_length (l : List Nat) : ∀ i v : Nat, (l.set i v).length = l.length := by
  induction l with
  | nil => intro i v; cases i <;> rfl
  | cons a tl ih =>
    intro i v
    cases i with
    | zero => rfl
    | succ j => show (tl.set j v).length + 1 = tl.length + 1; rw [ih]

/-- Version and variant facts for any 16-byte buffer stamped by the Go
`setVersion` / `setVariantRFC4122` pair. -/
theorem stamp_facts (b : List Nat) (hlen : b.length = 16) (ver : Nat) (hver : ver < 16) :
    ((setVariantRFC4122 (setVersion b ver)).getD 6 0) >>> 4 = ver ∧
    ((setVariantRFC4122 (setVersion b ver)).getD 8 0) >>> 6 = 2 := by
  have hlen6 : (setVersion b ver).length = 16 := by
    unfold setVersion; rw [set_length]; exact hlen
  constructor
  · unfold setVariantRFC4122
    rw [getD_set_other _ 8 6 _ (by omega)]
    unfold setVersion
    rw [getD_set_self _ 6 _ (by omega)]
    generalize b.getD 6 0 = z
    have hmask : ∀ v, v < 16 → (v <<< 4) &&& 240 = v * 16 := by decide
    rw [and15 z, hmask ver hver]
    have h16 : (2 : Nat) ^ 4 = 16 := by norm_num
    have hor := lor_high 4 (z % 16) ver (by rw [h16]; exact Nat.mod_lt _ (by norm_num))
    rw [h16] at hor
    rw [hor, shiftr, h16]
    omega
  · unfold setVariantRFC4122
    rw [getD_set_self _ 8 _ (by omega)]
    rw [and63, or128 _ (Nat.mod_lt _ (by norm_num)), shiftr]
    norm_num
    omega

/-- C2: every generated payload carries its version number in the high nibble
of byte 6 and the pattern `10` in the top two bits of byte 8, and for any
16-byte payload whose byte 8 has top bits `10` the first hex digit of the
fourth hyphen-group of the rendered string is one of 8, 9, a, b. -/
theorem version_and_variant_bits
    (t cs tsM : Nat) (node : List Nat) (rnd : Option (List Nat)) (now1 now2 : Nat)
    (hr4 : ∀ r, rnd = some r → r.length = 16)
    (r7 : List Nat)
    (md5 sha1 : List Nat → List Nat) (ns data : List Nat)
    (hmd5 : (md5 (ns ++ data)).length = 16) (hsha1 : (sha1 (ns ++ data)).length = 20)
    (b0 b1 b2 b3 b4 b5 b6 b7 b8 b9 b10 b11 b12 b13 b14 b15 : Nat)
    (hb8 : b8 >>> 6 = 2) (hb8lt : b8 < 256) :
    ((newV1bytes t cs node).getD 6 0) >>> 4 = 1 ∧
    ((newV1bytes t cs node).getD 8 0) >>> 6 = 2 ∧
    ((newV6bytes t cs node).getD 6 0) >>> 4 = 6 ∧
    ((newV6bytes t cs node).getD 8 0) >>> 6 = 2 ∧
    ((newV7bytes tsM r7).getD 6 0) >>> 4 = 7 ∧
    ((newV7bytes tsM r7).getD 8 0) >>> 6 = 2 ∧
    ((newV4bytes rnd now1 now2).getD 6 0) >>> 4 = 4 ∧
    ((newV4bytes rnd now1 now2).getD 8 0) >>> 6 = 2 ∧
    ((v3payload md5 ns data).getD 6 0) >>> 4 = 3 ∧
    ((v3payload md5 ns data).getD 8 0) >>> 6 = 2 ∧
    ((v5payload sha1 ns data).getD 6 0) >>> 4 = 5 ∧
    ((v5payload sha1 ns data).getD 8 0) >>> 6 = 2 ∧
    (bytesToUUIDString [b0, b1, b2, b3, b4, b5, b6, b7, b8, b9, b10, b11, b12, b13, b14, b15]
      true).toList.getD 19 ' ' ∈ (['8', '9', 'a', 'b'] : List Char) := by
  have hv1b6 : ((newV1bytes t cs node).getD 6 0) >>> 4 = 1 := by
    simp only [newV1bytes, putUint32BE, putUint16BE, List.cons_append, List.nil_append,
      List.getD_cons_succ, List.getD_cons_zero]
    rw [and4095, or4096 _ (Nat.mod_lt _ (by norm_num)), shiftr, and255, shiftr]
    norm_num
    omega
  have hv1b8 : ((newV1bytes t cs node).getD 8 0) >>> 6 = 2 := by
    simp only [newV1bytes, putUint32BE, putUint16BE, List.cons_append, List.nil_append,
      List.getD_cons_succ, List.getD_cons_zero]
    rw [and63, or128 _ (Nat.mod_lt _ (by norm_num)), shiftr]
    norm_num
    omega
  have hv6b6 : ((newV6bytes t cs node).getD 6 0) >>> 4 = 6 := by
    simp only [newV6bytes, putUint32BE, putUint16BE, List.cons_append, List.nil_append,
      List.getD_cons_succ, List.getD_cons_zero]
    rw [and4095, or24576 _ (Nat.mod_lt _ (by norm_num)), shiftr, and255, shiftr]
    norm_num
    omega
  have hv6b8 : ((newV6bytes t cs node).getD 8 0) >>> 6 = 2 := by
    simp only [newV6bytes, putUint32BE, putUint16BE, List.cons_append, List.nil_append,
      List.getD_cons_succ, List.getD_cons_zero]
    rw [and63, or128 _ (Nat.mod_lt _ (by norm_num)), shiftr]
    norm_num
    omega
  have hv7b6 : ((newV7bytes tsM r7).getD 6 0) >>> 4 = 7 := by
    simp only [newV7bytes, List.cons_append, List.nil_append,
      List.getD_cons_succ, List.getD_cons_zero]
    rw [and15, or112 _ (Nat.mod_lt _ (by norm_num)), shiftr]
    norm_num
    omega
  have hv7b8 : ((newV7bytes tsM r7).getD 8 0) >>> 6 = 2 := by
    simp only [newV7bytes, List.cons_append, List.nil_append,
      List.getD_cons_succ, List.getD_cons_zero]
    rw [and63, or128 _ (Nat.mod_lt _ (by norm_num)), shiftr]
    norm_num
    omega
  have hlen4 : (match rnd with
      | some r => r
      | none => putUint64BE now1 ++ putUint64BE now2).length = 16 := by
    cases rnd with
    | some r => exact hr4 r rfl
    | none => simp [putUint64BE]
  have hv4 := stamp_facts _ hlen4 4 (by norm_num)
  have hv3 := stamp_facts ((md5 (ns ++ data)).take 16) (by simp [hmd5]) 3 (by norm_num)
  have hv5 := stamp_facts ((sha1 (ns ++ data)).take 16) (by simp [hsha1]) 5 (by norm_num)
  have hchar : (bytesToUUIDString
      [b0, b1, b2, b3, b4, b5, b6, b7, b8, b9, b10, b11, b12, b13, b14, b15]
      true).toList.getD 19 ' ' ∈ (['8', '9', 'a', 'b'] : List Char) := by
    have hexp : (bytesToUUIDString
        [b0, b1, b2, b3, b4, b5, b6, b7, b8, b9, b10, b11, b12, b13, b14, b15]
        true).toList.getD 19 ' ' = hexChar (b8 >>> 4) := by
      simp only [bytesToUUIDString, hexEncode, hexByte, List.map_cons, List.map_nil,
        List.flatten, List.cons_append, List.nil_append, List.take, List.drop,
        String.toList]
      rfl
    rw [hexp]
    have hrange : 128 ≤ b8 ∧ b8 < 192 := by
      rw [shiftr] at hb8
      norm_num at hb8
      omega
    have hball : ∀ d, d < 64 → hexChar ((128 + d) >>> 4) ∈ (['8', '9', 'a', 'b'] : List Char) := by
      decide
    have hb8eq : 128 + (b8 - 128) = b8 := by omega
    rw [← hb8eq]
    exact hball (b8 - 128) (by omega)
  exact ⟨hv1b6, hv1b8, hv6b6, hv6b8, hv7b6, hv7b8, hv4.1, hv4.2, hv3.1, hv3.2, hv5.1, hv5.2, hchar⟩

/-- Witness for C2 at concrete inputs. -/
theorem version_and_variant_bits_witness :
    ((newV1bytes 0 0 []).getD 6 0) >>> 4 = 1 ∧
    ((newV1bytes 0 0 []).getD 8 0) >>> 6 = 2 ∧
    ((newV6bytes 0 0 []).getD 6 0) >>> 4 = 6 ∧
    ((newV6bytes 0 0 []).getD 8 0) >>> 6 = 2 ∧
    ((newV7bytes 0 []).getD 6 0) >>> 4 = 7 ∧
    ((newV7bytes 0 []).getD 8 0) >>> 6 = 2 ∧
    ((newV4bytes none 0 0).getD 6 0) >>> 4 = 4 ∧
    ((newV4bytes none 0 0).getD 8 0) >>> 6 = 2 ∧
    ((v3payload (fun _ => List.replicate 16 0) [] []).getD 6 0) >>> 4 = 3 ∧
    ((v3payload (fun _ => List.replicate 16 0) [] []).getD 8 0) >>> 6 = 2 ∧
    ((v5payload (fun _ => List.replicate 20 0) [] []).getD 6 0) >>> 4 = 5 ∧
    ((v5payload (fun _ => List.replicate 20 0) [] []).getD 8 0) >>> 6 = 2 ∧
    (bytesToUUIDString [0, 0, 0, 0, 0, 0, 0, 0, 128, 0, 0, 0, 0, 0, 0, 0]
      true).toList.getD 19 ' ' ∈ (['8', '9', 'a', 'b'] : List Char) :=
  version_and_variant_bits 0 0 0 [] none 0 0 (fun r h => by cases h) []
    (fun _ => List.replicate 16 0) (fun _ => List.replicate 20 0) [] []
    (by simp) (by simp) 0 0 0 0 0 0 0 0 128 0 0 0 0 0 0 0 (by decide) (by decide)

/-- Witness for C8 at concrete inputs. -/
theorem nodeID_resolution_witness :
    initNodeID (some ([[1, 2]] ++ [10, 20, 30, 40, 50, 60] :: [])) none =
      [10, 20, 30, 40, 50, 60] ∧
    initNodeID (some [[1, 2]]) (some [2, 3, 4, 5, 6, 7]) =
      ([2, 3, 4, 5, 6, 7].set 0 ([2, 3, 4, 5, 6, 7].getD 0 0 ||| 1)) ∧
    (initNodeID (some [[1, 2]]) (some [2, 3, 4, 5, 6, 7])).getD 0 0 =
      ([2, 3, 4, 5, 6, 7].getD 0 0) ||| 1 ∧
    ((initNodeID (some [[1, 2]]) (some [2, 3, 4, 5, 6, 7])).getD 0 0) % 2 = 1 ∧
    (initNodeID (some [[1, 2]]) (some [2, 3, 4, 5, 6, 7])).drop 1 =
      [2, 3, 4, 5, 6, 7].drop 1 ∧
    initNodeID none none = initNodeID (some [[1, 2]]) none :=
  nodeID_resolution [[1, 2]] [] [10, 20, 30, 40, 50, 60] (by decide) (by decide)
    [[1, 2]] (by decide) [2, 3, 4, 5, 6, 7] (by decide) none none

/-! ## C3: v6 layout and lexicographic sortability -/

theorem newV6bytes_cons (t cs : Nat) (node : List Nat) :
    newV6bytes t cs node =
      ((((t >>> 28) &&& 0xFFFFFFFF) >>> 24) &&& 255) ::
      ((((t >>> 28) &&& 0xFFFFFFFF) >>> 16) &&& 255) ::
      ((((t >>> 28) &&& 0xFFFFFFFF) >>> 8) &&& 255) ::
      (((t >>> 28) &&& 0xFFFFFFFF) &&& 255) ::
      ((((t >>> 12) &&& 0xFFFF) >>> 8) &&& 255) ::
      (((t >>> 12) &&& 0xFFFF) &&& 255) ::
      ((((t &&& 0x0FFF) ||| 0x6000) >>> 8) &&& 255) ::
      (((t &&& 0x0FFF) ||| 0x6000) &&& 255) ::
      (((cs >>> 8) &&& 0x3F) ||| 0x80) ::
      (cs &&& 0xFF) :: node := rfl

theorem render10 (b0 b1 b2 b3 b4 b5 b6 b7 b8 b9 : Nat) (node : List Nat) :
    (bytesToUUIDString (b0 :: b1 :: b2 :: b3 :: b4 :: b5 :: b6 :: b7 :: b8 :: b9 :: node)
      true).toList =
    [hexChar (b0 >>> 4), hexChar (b0 &&& 15), hexChar (b1 >>> 4), hexChar (b1 &&& 15),
     hexChar (b2 >>> 4), hexChar (b2 &&& 15), hexChar (b3 >>> 4), hexChar (b3 &&& 15), '-',
     hexChar (b4 >>> 4), hexChar (b4 &&& 15), hexChar (b5 >>> 4), hexChar (b5 &&& 15), '-',
     hexChar (b6 >>> 4), hexChar (b6 &&& 15), hexChar (b7 >>> 4), hexChar (b7 &&& 15), '-',
     hexChar (b8 >>> 4), hexChar (b8 &&& 15), hexChar (b9 >>> 4), hexChar (b9 &&& 15), '-'] ++
    (hexEncode node).take 12 := rfl

theorem fill_v6 (t : Nat) :
    fillTemplate hexChar v6TimeTemplate (digitsBE 16 15 t) =
    [hexChar (t / 16 ^ 14 % 16), hexChar (t / 16 ^ 13 % 16), hexChar (t / 16 ^ 12 % 16),
     hexChar (t / 16 ^ 11 % 16), hexChar (t / 16 ^ 10 % 16), hexChar (t / 16 ^ 9 % 16),
     hexChar (t / 16 ^ 8 % 16), hexChar (t / 16 ^ 7 % 16), '-',
     hexChar (t / 16 ^ 6 % 16), hexChar (t / 16 ^ 5 % 16), hexChar (t / 16 ^ 4 % 16),
     hexChar (t / 16 ^ 3 % 16), '-', '6',
     hexChar (t / 16 ^ 2 % 16), hexChar (t / 16 ^ 1 % 16), hexChar (t / 16 ^ 0 % 16), '-'] := rfl

theorem tail_v6 (cs : Nat) (node : List Nat) :
    v6Tail cs node =
    [hexChar (((((cs >>> 8) &&& 0x3F) ||| 0x80)) >>> 4),
     hexChar (((((cs >>> 8) &&& 0x3F) ||| 0x80)) &&& 15),
     hexChar ((cs &&& 0xFF) >>> 4), hexChar ((cs &&& 0xFF) &&& 15), '-'] ++
    (hexEncode node).take 12 := rfl

/-- The hyphenated v6 rendering splits into a timestamp-determined head of 19
characters and a tail determined by the clock sequence and the node id. -/
theorem v6render_decomp (t cs : Nat) (node : List Nat) (ht : t < 2 ^ 60) :
    (bytesToUUIDString (newV6bytes t cs node) true).toList =
      fillTemplate hexChar v6TimeTemplate (digitsBE 16 15 t) ++ v6Tail cs node := by
  have ht2 : t < 1152921504606846976 := by
    have h : (2 : Nat) ^ 60 = 1152921504606846976 := by norm_num
    omega
  rw [newV6bytes_cons, render10, fill_v6, tail_v6]
  simp only [List.cons_append, List.nil_append, List.cons.injEq, and_true, true_and]
  repeat' apply And.intro
  all_goals first
  | rfl
  | (try rw [show ('6' : Char) = hexChar 6 from by decide]
     apply congrArg
     simp only [shiftr, andFFFFFFFF, and65535, and4095, and255, and63, and15]
     try rw [or24576 _ (Nat.mod_lt _ (by norm_num))]
     try norm_num
     try omega)

/-- C3: the v6 generator places the 60-bit timestamp most-significant-bits
first (top 32 bits in bytes 0–3 big-endian, next 16 bits in bytes 4–5, low
12 bits in the low 12 bits of bytes 6–7, with version nibble 6 in the high
nibble of byte 6); consequently, for two v6 payloads with t1 < t2 < 2^60 and
equal clock sequence and node, the rendered hex string of the first sorts
lexicographically before that of the second. -/
theorem v6_layout_and_sortable (t t1 t2 cs : Nat) (node : List Nat)
    (ht : t < 2 ^ 60) (h12 : t1 < t2) (ht2 : t2 < 2 ^ 60) :
    ((newV6bytes t cs node).getD 0 0 * 2 ^ 24 + (newV6bytes t cs node).getD 1 0 * 2 ^ 16 +
      (newV6bytes t cs node).getD 2 0 * 2 ^ 8 + (newV6bytes t cs node).getD 3 0 = t >>> 28) ∧
    ((newV6bytes t cs node).getD 4 0 * 2 ^ 8 + (newV6bytes t cs node).getD 5 0 =
      (t >>> 12) &&& 0xFFFF) ∧
    (((newV6bytes t cs node).getD 6 0 &&& 0x0F) * 2 ^ 8 + (newV6bytes t cs node).getD 7 0 =
      t &&& 0x0FFF) ∧
    ((newV6bytes t cs node).getD 6 0) >>> 4 = 6 ∧
    bytesToUUIDString (newV6bytes t1 cs node) true <
      bytesToUUIDString (newV6bytes t2 cs node) true := by
  have hpow : (16 : Nat) ^ 15 = 2 ^ 60 := by norm_num
  refine ⟨?_, ?_, ?_, ?_, ?_⟩
  · simp only [newV6bytes, putUint32BE, putUint16BE, List.cons_append, List.nil_append,
      List.getD_cons_succ, List.getD_cons_zero]
    simp only [shiftr, andFFFFFFFF, and65535, and4095, and255, and63, and15]
    norm_num at ht ⊢
    omega
  · simp only [newV6bytes, putUint32BE, putUint16BE, List.cons_append, List.nil_append,
      List.getD_cons_succ, List.getD_cons_zero]
    simp only [shiftr, andFFFFFFFF, and65535, and4095, and255, and63, and15]
    norm_num at ht ⊢
    omega
  · simp only [newV6bytes, putUint32BE, putUint16BE, List.cons_append, List.nil_append,
      List.getD_cons_succ, List.getD_cons_zero]
    simp only [shiftr, andFFFFFFFF, and65535, and4095, and255, and63, and15]
    rw [or24576 _ (Nat.mod_lt _ (by norm_num))]
    norm_num at ht ⊢
    omega
  · simp only [newV6bytes, putUint32BE, putUint16BE, List.cons_append, List.nil_append,
      List.getD_cons_succ, List.getD_cons_zero]
    rw [and4095, or24576 _ (Nat.mod_lt _ (by norm_num)), shiftr, and255, shiftr]
    norm_num
    omega
  · have ht1 : t1 < 2 ^ 60 := lt_trans h12 ht2
    have hd1 := v6render_decomp t1 cs node ht1
    have hd2 := v6render_decomp t2 cs node ht2
    rw [String.lt_iff_toList_lt, hd1, hd2]
    show List.Lex (· < ·) _ _
    refine lex_append ?_ ?_ _ _
    · refine fillTemplate_lex hexChar 16
        (fun a b hab hb => hexChar_mono b hb a hab) v6TimeTemplate _ _ ?_ ?_ ?_ ?_
      · refine digitsBE_lex 16 (by norm_num) 15 t1 t2 ?_
        rw [Nat.mod_eq_of_lt (by omega), Nat.mod_eq_of_lt (by omega)]
        exact h12
      · simp [digitsBE_length]
      · simp only [digitsBE_length]
        decide
      · exact digitsBE_lt 16 (by norm_num) 15 t2
    · exact fillTemplate_length_eq hexChar v6TimeTemplate _ _ (by simp [digitsBE_length])

/-- Witness for C3 at concrete inputs. -/
theorem v6_layout_and_sortable_witness :
    ((newV6bytes 5 77 [1, 2, 3, 4, 5, 6]).getD 0 0 * 2 ^ 24 +
      (newV6bytes 5 77 [1, 2, 3, 4, 5, 6]).getD 1 0 * 2 ^ 16 +
      (newV6bytes 5 77 [1, 2, 3, 4, 5, 6]).getD 2 0 * 2 ^ 8 +
      (newV6bytes 5 77 [1, 2, 3, 4, 5, 6]).getD 3 0 = 5 >>> 28) ∧
    ((newV6bytes 5 77 [1, 2, 3, 4, 5, 6]).getD 4 0 * 2 ^ 8 +
      (newV6bytes 5 77 [1, 2, 3, 4, 5, 6]).getD 5 0 = (5 >>> 12) &&& 0xFFFF) ∧
    (((newV6bytes 5 77 [1, 2, 3, 4, 5, 6]).getD 6 0 &&& 0x0F) * 2 ^ 8 +
      (newV6bytes 5 77 [1, 2, 3, 4, 5, 6]).getD 7 0 = 5 &&& 0x0FFF) ∧
    ((newV6bytes 5 77 [1, 2, 3, 4, 5, 6]).getD 6 0) >>> 4 = 6 ∧
    bytesToUUIDString (newV6bytes 3 77 [1, 2, 3, 4, 5, 6]) true <
      bytesToUUIDString (newV6bytes 9 77 [1, 2, 3, 4, 5, 6]) true :=
  v6_layout_and_sortable 5 3 9 77 [1, 2, 3, 4, 5, 6] (by norm_num) (by norm_num) (by norm_num)

/-! ## C4: purity of the name-based generators -/

/-- C4: the v3/v5 generators are pure functions of (namespace, data): their
output is identical across any two ambient process states (clock reading,
random stream, shared clock state, node id), for the formatted and the
hyphen-free entry points alike. -/
theorem uuidV3V5_pure (md5 sha1 : List Nat → List Nat) (e1 e2 : Env) (ns data : List Nat) :
    UuidV3Formatted e1 md5 ns data = UuidV3Formatted e2 md5 ns data ∧
    UuidV5Formatted e1 sha1 ns data = UuidV5Formatted e2 sha1 ns data ∧
    UuidV3 e1 md5 ns data = UuidV3 e2 md5 ns data ∧
    UuidV5 e1 sha1 ns data = UuidV5 e2 sha1 ns data :=
  ⟨rfl, rfl, rfl, rfl⟩

/-! ## C5: the namespace-length check -/

/-- C5 counterexample: the namespace-length violation is not the only
caller-visible failure in the package — when the random source fails,
`HumanUid`'s slice expression `id[0:32]` panics (embedded as `none`),
because the nil-prime rendering leaves the string 26 characters long. -/
theorem humanUid_panic_cex : HumanUid 100 none = none := by decide

/-- C5 (amended): `UuidV3`/`UuidV5` (formatted or not) return an error if and
only if the namespace is not exactly 16 bytes; this is the only error
*return* in the package, though `HumanUid` can still panic on random-source
failure. -/
theorem uuidV3V5_error_iff (md5 sha1 : List Nat → List Nat) (e : Env) (ns data : List Nat) :
    ((UuidV3Formatted e md5 ns data).isOk = true ↔ ns.length = 16) ∧
    ((UuidV5Formatted e sha1 ns data).isOk = true ↔ ns.length = 16) ∧
    ((UuidV3 e md5 ns data).isOk = true ↔ ns.length = 16) ∧
    ((UuidV5 e sha1 ns data).isOk = true ↔ ns.length = 16) := by
  by_cases h : ns.length = 16
  · refine ⟨?_, ?_, ?_, ?_⟩ <;>
      simp [UuidV3Formatted, UuidV5Formatted, UuidV3, UuidV5, h, Except.isOk, Except.toBool]
  · refine ⟨?_, ?_, ?_, ?_⟩ <;>
      simp [UuidV3Formatted, UuidV5Formatted, UuidV3, UuidV5, h, Except.isOk, Except.toBool]

/-! ## C9: the grouped renderer round-trips -/

theorem filter_no_dash (l : List Char) (h : ∀ c ∈ l, c ≠ '-') :
    l.filter (fun c => c ≠ '-') = l := by
  rw [List.filter_eq_self]
  intro a ha
  simpa using h a ha

theorem formatGroups_strip (gs : List Nat) : ∀ s : List Char, (∀ c ∈ s, c ≠ '-') →
    (formatGroups s gs).filter (fun c => c ≠ '-') = s := by
  induction gs with
  | nil => intro s h; exact filter_no_dash s h
  | cons g tl ih =>
    intro s h
    have step : formatGroups s (g :: tl) =
        '-' :: (s.take g ++ (if s.length ≤ g then [] else formatGroups (s.drop g) tl)) := rfl
    rw [step, List.filter_cons_of_neg (by decide), List.filter_append]
    have htake : (s.take g).filter (fun c => c ≠ '-') = s.take g :=
      filter_no_dash _ (fun c hc => h c (List.take_subset g s hc))
    by_cases hle : s.length ≤ g
    · rw [if_pos hle, htake]
      simp only [List.filter_nil, List.append_nil]
      exact List.take_of_length_le hle
    · rw [if_neg hle, htake, ih (s.drop g) (fun c hc => h c (List.drop_subset g s hc))]
      exact List.take_append_drop g s

/-- C9 counterexample: for a source string that itself contains the separator
character, deleting every separator from the rendered result does not
reproduce the source (here the single-character source "-"). -/
theorem formatWithHyphens_roundtrip_cex :
    ([1] : List Nat).sum = ("-".toList).length ∧
    (formatWithHyphens "-".toList [1]).filter (fun c => c ≠ '-') ≠ "-".toList := by
  decide

/-- C9 (amended): for every source string containing no separator character
and every list of group sizes summing to its length, rendering with
`formatWithHyphens` and then deleting every separator reproduces the source
exactly. -/
theorem formatWithHyphens_roundtrip (s : List Char) (groups : List Nat)
    (hnod : ∀ c ∈ s, c ≠ '-') (hsum : groups.sum = s.length) :
    (formatWithHyphens s groups).filter (fun c => c ≠ '-') = s := by
  cases groups with
  | nil => exact filter_no_dash s hnod
  | cons g tl =>
    have step : formatWithHyphens s (g :: tl) =
        s.take g ++ (if s.length ≤ g then [] else formatGroups (s.drop g) tl) := rfl
    rw [step, List.filter_append]
    have htake : (s.take g).filter (fun c => c ≠ '-') = s.take g :=
      filter_no_dash _ (fun c hc => hnod c (List.take_subset g s hc))
    by_cases hle : s.length ≤ g
    · rw [if_pos hle, htake]
      simp only [List.filter_nil, List.append_nil]
      exact List.take_of_length_le hle
    · rw [if_neg hle, htake,
        formatGroups_strip tl (s.drop g) (fun c hc => hnod c (List.drop_subset g s hc))]
      exact List.take_append_drop g s

/-! ## C6 and C7: decimal identifier families -/

theorem decimalUid_some (w t p : Nat) (hw : w ≤ 21 + decLen (p + 1) p) :
    decimalUid w t (some p) = some (String.mk ((uidDigits w t p).map decChar)) := by
  have hlen : (timeDigits t ++ primeSuffix (some p)).length = 21 + decLen (p + 1) p := by
    simp [timeDigits, primeSuffix, decimalRepr, digitsBE_length]
  show (if (timeDigits t ++ primeSuffix (some p)).length < w then none
    else some (String.mk ((timeDigits t ++ primeSuffix (some p)).take w))) = _
  rw [if_neg (by omega)]
  show some (String.mk (((digitsBE 10 21 (t / 100)).map decChar ++
    (digitsBE 10 (decLen (p + 1) p) p).map decChar).take w)) = _
  rw [← List.map_append, ← List.map_take]
  rfl

theorem uidDigits_lt10 (w t p : Nat) : ∀ x ∈ uidDigits w t p, x < 10 := by
  intro x hx
  have hx2 := List.take_subset _ _ hx
  rcases List.mem_append.mp hx2 with h | h
  · exact digitsBE_lt 10 (by norm_num) 21 _ x h
  · exact digitsBE_lt 10 (by norm_num) _ p x h

theorem decLen_ge_19 (p : Nat) (hp : 2 ^ 63 ≤ p) : 19 ≤ decLen (p + 1) p := by
  rw [decLen_eq_log (p + 1) p (by omega)]
  have h18 : (10 : Nat) ^ 18 ≤ p := le_trans (by norm_num) hp
  have := (Nat.pow_le_iff_le_log (by norm_num) (by omega)).mp h18
  omega

theorem uidDigits_narrow (w t p : Nat) (hw : w ≤ 21) :
    uidDigits w t p = digitsBE 10 w (t / (100 * 10 ^ (21 - w))) := by
  unfold uidDigits
  rw [List.take_append_of_le_length (by rw [digitsBE_length]; omega)]
  rw [digitsBE_take 10 w 21 _ hw, Nat.div_div_eq_div_mul]

theorem uidDigits_wide (w t p : Nat) (hw : 21 ≤ w) :
    uidDigits w t p =
      digitsBE 10 21 (t / 100) ++ (digitsBE 10 (decLen (p + 1) p) p).take (w - 21) := by
  unfold uidDigits
  rw [List.take_append_eq_append_take,
    List.take_of_length_le (by rw [digitsBE_length]; omega), digitsBE_length]

/-- Ordering of two fixed-width decimal identifiers whose width is at most
the 21 rendered time digits: the suffix is cut off entirely. -/
theorem decUid_lt_narrow (w t1 t2 p1 p2 : Nat) (hw : w ≤ 21)
    (hv : t1 / (100 * 10 ^ (21 - w)) < t2 / (100 * 10 ^ (21 - w)))
    (hb : t2 / (100 * 10 ^ (21 - w)) < 10 ^ w) :
    (decimalUid w t1 (some p1)).getD "" < (decimalUid w t2 (some p2)).getD "" ∧
    strVal ((decimalUid w t1 (some p1)).getD "") <
      strVal ((decimalUid w t2 (some p2)).getD "") := by
  rw [decimalUid_some w t1 p1 (by omega), decimalUid_some w t2 p2 (by omega)]
  simp only [Option.getD_some]
  rw [uidDigits_narrow w t1 p1 hw, uidDigits_narrow w t2 p2 hw]
  have hlex : List.Lex (· < ·) (digitsBE 10 w (t1 / (100 * 10 ^ (21 - w))))
      (digitsBE 10 w (t2 / (100 * 10 ^ (21 - w)))) := by
    refine digitsBE_lex 10 (by norm_num) w _ _ ?_
    rw [Nat.mod_eq_of_lt (by omega), Nat.mod_eq_of_lt hb]
    exact hv
  constructor
  · exact string_lt_of_lex (lex_map decChar 10 (fun a b hab hb2 => decChar_mono b hb2 a hab)
      hlex (digitsBE_lt 10 (by norm_num) w _))
  · have h1 : strVal (String.mk ((digitsBE 10 w (t1 / (100 * 10 ^ (21 - w)))).map decChar)) =
        digitsVal (digitsBE 10 w (t1 / (100 * 10 ^ (21 - w)))) :=
      charsVal_map _ (digitsBE_lt 10 (by norm_num) w _)
    have h2 : strVal (String.mk ((digitsBE 10 w (t2 / (100 * 10 ^ (21 - w)))).map decChar)) =
        digitsVal (digitsBE 10 w (t2 / (100 * 10 ^ (21 - w)))) :=
      charsVal_map _ (digitsBE_lt 10 (by norm_num) w _)
    rw [h1, h2]
    exact digitsVal_lt_of_lex hlex (by rw [digitsBE_length, digitsBE_length])
      (digitsBE_lt 10 (by norm_num) w _)

/-- Ordering of the wide decimal identifiers (23 and 32 characters), whose
rendered form contains all 21 time digits followed by suffix digits. -/
theorem decUid_lt_wide (w t1 t2 p1 p2 : Nat) (hw : 21 ≤ w) (hw40 : w ≤ 40)
    (hp1 : 2 ^ 63 ≤ p1) (hp2 : 2 ^ 63 ≤ p2)
    (hv : t1 / 100 < t2 / 100) (hb : t2 / 100 < 10 ^ 21) :
    (decimalUid w t1 (some p1)).getD "" < (decimalUid w t2 (some p2)).getD "" ∧
    strVal ((decimalUid w t1 (some p1)).getD "") <
      strVal ((decimalUid w t2 (some p2)).getD "") := by
  have h191 := decLen_ge_19 p1 hp1
  have h192 := decLen_ge_19 p2 hp2
  rw [decimalUid_some w t1 p1 (by omega), decimalUid_some w t2 p2 (by omega)]
  simp only [Option.getD_some]
  rw [uidDigits_wide w t1 p1 hw, uidDigits_wide w t2 p2 hw]
  have hlex21 : List.Lex (· < ·) (digitsBE 10 21 (t1 / 100)) (digitsBE 10 21 (t2 / 100)) := by
    refine digitsBE_lex 10 (by norm_num) 21 _ _ ?_
    rw [Nat.mod_eq_of_lt (by omega), Nat.mod_eq_of_lt hb]
    exact hv
  have hlex : List.Lex (· < ·)
      (digitsBE 10 21 (t1 / 100) ++ (digitsBE 10 (decLen (p1 + 1) p1) p1).take (w - 21))
      (digitsBE 10 21 (t2 / 100) ++ (digitsBE 10 (decLen (p2 + 1) p2) p2).take (w - 21)) :=
    lex_append hlex21 (by rw [digitsBE_length, digitsBE_length]) _ _
  have hd1 : ∀ x ∈ digitsBE 10 21 (t1 / 100) ++
      (digitsBE 10 (decLen (p1 + 1) p1) p1).take (w - 21), x < 10 := by
    intro x hx
    rcases List.mem_append.mp hx with h | h
    · exact digitsBE_lt 10 (by norm_num) 21 _ x h
    · exact digitsBE_lt 10 (by norm_num) _ p1 x (List.take_subset _ _ h)
  have hd2 : ∀ x ∈ digitsBE 10 21 (t2 / 100) ++
      (digitsBE 10 (decLen (p2 + 1) p2) p2).take (w - 21), x < 10 := by
    intro x hx
    rcases List.mem_append.mp hx with h | h
    · exact digitsBE_lt 10 (by norm_num) 21 _ x h
    · exact digitsBE_lt 10 (by norm_num) _ p2 x (List.take_subset _ _ h)
  have hlen : (digitsBE 10 21 (t1 / 100) ++
      (digitsBE 10 (decLen (p1 + 1) p1) p1).take (w - 21)).length =
      (digitsBE 10 21 (t2 / 100) ++
        (digitsBE 10 (decLen (p2 + 1) p2) p2).take (w - 21)).length := by
    simp only [List.length_append, List.length_take, digitsBE_length]
    omega
  constructor
  · exact string_lt_of_lex (lex_map decChar 10 (fun a b hab hb2 => decChar_mono b hb2 a hab)
      hlex hd2)
  · have h1 := charsVal_map _ hd1
    have h2 := charsVal_map _ hd2
    rw [show strVal (String.mk ((digitsBE 10 21 (t1 / 100) ++
        (digitsBE 10 (decLen (p1 + 1) p1) p1).take (w - 21)).map decChar)) =
      digitsVal (digitsBE 10 21 (t1 / 100) ++
        (digitsBE 10 (decLen (p1 + 1) p1) p1).take (w - 21)) from h1]
    rw [show strVal (String.mk ((digitsBE 10 21 (t2 / 100) ++
        (digitsBE 10 (decLen (p2 + 1) p2) p2).take (w - 21)).map decChar)) =
      digitsVal (digitsBE 10 21 (t2 / 100) ++
        (digitsBE 10 (decLen (p2 + 1) p2) p2).take (w - 21)) from h2]
    exact digitsVal_lt_of_lex hlex hlen hd1

/-- Ordering of the raw timestamp strings: the later value renders greater
both numerically and (when the digit counts agree) lexicographically. -/
theorem decimalRepr_lt (n1 n2 : Nat) (h12 : n1 < n2)
    (hlen : decLen (n1 + 1) n1 = decLen (n2 + 1) n2) :
    String.mk (decimalRepr n1) < String.mk (decimalRepr n2) ∧
    strVal (String.mk (decimalRepr n1)) < strVal (String.mk (decimalRepr n2)) := by
  unfold decimalRepr
  rw [hlen]
  have hk2 : decLen (n2 + 1) n2 = Nat.log 10 n2 + 1 := decLen_eq_log (n2 + 1) n2 (by omega)
  have hb2 : n2 < 10 ^ decLen (n2 + 1) n2 := by
    rw [hk2]
    exact Nat.lt_pow_succ_log_self (by norm_num) n2
  have hlex : List.Lex (· < ·) (digitsBE 10 (decLen (n2 + 1) n2) n1)
      (digitsBE 10 (decLen (n2 + 1) n2) n2) := by
    refine digitsBE_lex 10 (by norm_num) _ _ _ ?_
    rw [Nat.mod_eq_of_lt (by omega), Nat.mod_eq_of_lt hb2]
    exact h12
  constructor
  · exact string_lt_of_lex (lex_map decChar 10 (fun a b hab hb3 => decChar_mono b hb3 a hab)
      hlex (digitsBE_lt 10 (by norm_num) _ _))
  · have h1 := charsVal_map _ (digitsBE_lt 10 (by norm_num) (decLen (n2 + 1) n2) n1)
    have h2 := charsVal_map _ (digitsBE_lt 10 (by norm_num) (decLen (n2 + 1) n2) n2)
    rw [show strVal (String.mk ((digitsBE 10 (decLen (n2 + 1) n2) n1).map decChar)) =
      digitsVal (digitsBE 10 (decLen (n2 + 1) n2) n1) from h1]
    rw [show strVal (String.mk ((digitsBE 10 (decLen (n2 + 1) n2) n2).map decChar)) =
      digitsVal (digitsBE 10 (decLen (n2 + 1) n2) n2) from h2]
    exact digitsVal_lt_of_lex hlex (by rw [digitsBE_length, digitsBE_length])
      (digitsBE_lt 10 (by norm_num) _ _)

/-- C6 counterexample: two NanoUid calls one nanosecond apart (the claim's
stated minimum quantum for that family) can produce a later string that is
smaller, because the rendered time digit string has only 100 ns resolution
and the random suffix then decides the order. -/
theorem nanoUid_order_cex :
    (0 : Nat) + 1 ≤ 1 ∧
    ¬ ((NanoUid 0 (some (9 * 10 ^ 18))).getD "" < (NanoUid 1 (some (10 ^ 18))).getD "") := by
  refine ⟨by norm_num, ?_⟩
  intro h
  rw [String.lt_iff_toList_lt] at h
  exact absurd h (by decide)

/-- C6 (amended): the later decimal identifier is lexicographically and
numerically greater when the calls are separated by at least the rendered
resolution of the family (1 s for SecUid and Timestamp, 1 µs for MicroUid
and TimestampMicro, 100 ns — not 1 ns — for HumanUid and NanoUid, 1 ns for
TimestampNano), within the fixed-width era, and with equal digit counts for
the unpadded raw timestamps. -/
theorem decimal_ordering
    (a1 a2 b1 b2 c1 c2 d1 d2 p1 p2 : Nat)
    (hp1 : 2 ^ 63 ≤ p1) (hp2 : 2 ^ 63 ≤ p2)
    (hsec : a1 + 1000000000 ≤ a2) (hsecb : a2 < 10 ^ 23)
    (hmic : b1 + 1000 ≤ b2) (hmicb : b2 < 10 ^ 23)
    (hhn : c1 + 100 ≤ c2) (hhnb : c2 < 10 ^ 23)
    (hnan : d1 + 1 ≤ d2)
    (hlen1 : decLen (a1 / 1000000000 + 1) (a1 / 1000000000) =
      decLen (a2 / 1000000000 + 1) (a2 / 1000000000))
    (hlen2 : decLen (b1 / 1000 + 1) (b1 / 1000) = decLen (b2 / 1000 + 1) (b2 / 1000))
    (hlen3 : decLen (d1 + 1) d1 = decLen (d2 + 1) d2) :
    ((SecUid a1 (some p1)).getD "" < (SecUid a2 (some p2)).getD "" ∧
      strVal ((SecUid a1 (some p1)).getD "") < strVal ((SecUid a2 (some p2)).getD "")) ∧
    ((MicroUid b1 (some p1)).getD "" < (MicroUid b2 (some p2)).getD "" ∧
      strVal ((MicroUid b1 (some p1)).getD "") < strVal ((MicroUid b2 (some p2)).getD "")) ∧
    ((HumanUid c1 (some p1)).getD "" < (HumanUid c2 (some p2)).getD "" ∧
      strVal ((HumanUid c1 (some p1)).getD "") < strVal ((HumanUid c2 (some p2)).getD "")) ∧
    ((NanoUid c1 (some p1)).getD "" < (NanoUid c2 (some p2)).getD "" ∧
      strVal ((NanoUid c1 (some p1)).getD "") < strVal ((NanoUid c2 (some p2)).getD "")) ∧
    (Timestamp a1 < Timestamp a2 ∧ strVal (Timestamp a1) < strVal (Timestamp a2)) ∧
    (TimestampMicro b1 < TimestampMicro b2 ∧
      strVal (TimestampMicro b1) < strVal (TimestampMicro b2)) ∧
    (TimestampNano d1 < TimestampNano d2 ∧
      strVal (TimestampNano d1) < strVal (TimestampNano d2)) := by
  have hq1 : (100 : Nat) * 10 ^ (21 - 14) = 1000000000 := by norm_num
  have hq2 : (100 : Nat) * 10 ^ (21 - 20) = 1000 := by norm_num
  refine ⟨?_, ?_, ?_, ?_, ?_, ?_, ?_⟩
  · refine decUid_lt_narrow 14 a1 a2 p1 p2 (by norm_num) ?_ ?_
    · rw [hq1]; omega
    · rw [hq1]
      have h : (10 : Nat) ^ 23 = 10 ^ 14 * 1000000000 := by norm_num
      rw [h] at hsecb
      exact Nat.div_lt_of_lt_mul (by omega)
  · refine decUid_lt_narrow 20 b1 b2 p1 p2 (by norm_num) ?_ ?_
    · rw [hq2]; omega
    · rw [hq2]
      have h : (10 : Nat) ^ 23 = 10 ^ 20 * 1000 := by norm_num
      rw [h] at hmicb
      exact Nat.div_lt_of_lt_mul (by omega)
  · refine decUid_lt_wide 32 c1 c2 p1 p2 (by norm_num) (by norm_num) hp1 hp2 (by omega) ?_
    have h : (10 : Nat) ^ 23 = 10 ^ 21 * 100 := by norm_num
    rw [h] at hhnb
    exact Nat.div_lt_of_lt_mul (by omega)
  · refine decUid_lt_wide 23 c1 c2 p1 p2 (by norm_num) (by norm_num) hp1 hp2 (by omega) ?_
    have h : (10 : Nat) ^ 23 = 10 ^ 21 * 100 := by norm_num
    rw [h] at hhnb
    exact Nat.div_lt_of_lt_mul (by omega)
  · exact decimalRepr_lt (a1 / 1000000000) (a2 / 1000000000) (by omega) hlen1
  · exact decimalRepr_lt (b1 / 1000) (b2 / 1000) (by omega) hlen2
  · exact decimalRepr_lt d1 d2 (by omega) hlen3

/-- Witness for C6's amended theorem at concrete inputs. -/
theorem decimal_ordering_witness :
    ((SecUid 0 (some (2 ^ 63))).getD "" < (SecUid 1000000000 (some (2 ^ 63))).getD "" ∧
      strVal ((SecUid 0 (some (2 ^ 63))).getD "") <
        strVal ((SecUid 1000000000 (some (2 ^ 63))).getD "")) ∧
    ((MicroUid 0 (some (2 ^ 63))).getD "" < (MicroUid 1000 (some (2 ^ 63))).getD "" ∧
      strVal ((MicroUid 0 (some (2 ^ 63))).getD "") <
        strVal ((MicroUid 1000 (some (2 ^ 63))).getD "")) ∧
    ((HumanUid 0 (some (2 ^ 63))).getD "" < (HumanUid 100 (some (2 ^ 63))).getD "" ∧
      strVal ((HumanUid 0 (some (2 ^ 63))).getD "") <
        strVal ((HumanUid 100 (some (2 ^ 63))).getD "")) ∧
    ((NanoUid 0 (some (2 ^ 63))).getD "" < (NanoUid 100 (some (2 ^ 63))).getD "" ∧
      strVal ((NanoUid 0 (some (2 ^ 63))).getD "") <
        strVal ((NanoUid 100 (some (2 ^ 63))).getD "")) ∧
    (Timestamp 0 < Timestamp 1000000000 ∧
      strVal (Timestamp 0) < strVal (Timestamp 1000000000)) ∧
    (TimestampMicro 0 < TimestampMicro 1000 ∧
      strVal (TimestampMicro 0) < strVal (TimestampMicro 1000)) ∧
    (TimestampNano 1 < TimestampNano 2 ∧
      strVal (TimestampNano 1) < strVal (TimestampNano 2)) :=
  decimal_ordering 0 1000000000 0 1000 0 100 1 2 (2 ^ 63) (2 ^ 63)
    (by norm_num) (by norm_num) (by norm_num) (by norm_num) (by norm_num) (by norm_num)
    (by norm_num) (by norm_num) (by norm_num) (by decide) (by decide) (by decide)

/-- C7 counterexample: when the random source fails, `HumanUid` panics (the
slice `id[0:32]` is out of range, embedded as `none`), and `NanoUid` returns
a string containing non-digit characters from the nil-prime rendering. -/
theorem decimal_widths_cex :
    HumanUid 0 none = none ∧
    NanoUid 0 none = some "000000000000000000000<n" ∧
    ¬ isDigitStr "000000000000000000000<n" := by
  refine ⟨by decide, by decide, ?_⟩
  intro h
  have h2 := h '<' (by decide)
  have h3 : ('<' : Char).toNat = 60 := by decide
  omega

/-- C7 (amended): when the random source succeeds (the suffix is the decimal
rendering of a 64-bit prime), every decimal generator returns — without
panicking — a string of exactly its declared width consisting of decimal
digits; under random-source failure HumanUid panics and NanoUid emits
non-digits. -/
theorem decimal_widths (t p : Nat) (hp : 2 ^ 63 ≤ p) :
    (∃ s, HumanUid t (some p) = some s ∧ s.length = 32 ∧ isDigitStr s) ∧
    (∃ s, NanoUid t (some p) = some s ∧ s.length = 23 ∧ isDigitStr s) ∧
    (∃ s, MicroUid t (some p) = some s ∧ s.length = 20 ∧ isDigitStr s) ∧
    (∃ s, SecUid t (some p) = some s ∧ s.length = 14 ∧ isDigitStr s) := by
  have h19 := decLen_ge_19 p hp
  have hmain : ∀ w, w ≤ 40 →
      ∃ s, decimalUid w t (some p) = some s ∧ s.length = w ∧ isDigitStr s := by
    intro w hw
    refine ⟨_, decimalUid_some w t p (by omega), ?_, ?_⟩
    · show ((uidDigits w t p).map decChar).length = w
      simp only [List.length_map, uidDigits, List.length_take, List.length_append,
        digitsBE_length]
      omega
    · intro c hc
      have hc2 : c ∈ (uidDigits w t p).map decChar := hc
      rcases List.mem_map.mp hc2 with ⟨d, hd, rfl⟩
      exact decChar_digit d (uidDigits_lt10 w t p d hd)
  exact ⟨hmain 32 (by norm_num), hmain 23 (by norm_num), hmain 20 (by norm_num),
    hmain 14 (by norm_num)⟩

/-- Witness for C7's amended theorem at concrete inputs. -/
theorem decimal_widths_witness :
    (∃ s, HumanUid 7 (some (2 ^ 63)) = some s ∧ s.length = 32 ∧ isDigitStr s) ∧
    (∃ s, NanoUid 7 (some (2 ^ 63)) = some s ∧ s.length = 23 ∧ isDigitStr s) ∧
    (∃ s, MicroUid 7 (some (2 ^ 63)) = some s ∧ s.length = 20 ∧ isDigitStr s) ∧
    (∃ s, SecUid 7 (some (2 ^ 63)) = some s ∧ s.length = 14 ∧ isDigitStr s) :=
  decimal_widths 7 (2 ^ 63) (by norm_num)

/-- Witness for C9's amended theorem at concrete inputs. -/
theorem formatWithHyphens_roundtrip_witness :
    (formatWithHyphens "20171119084926659914".toList [8, 6, 6]).filter (fun c => c ≠ '-') =
      "20171119084926659914".toList :=
  formatWithHyphens_roundtrip "20171119084926659914".toList [8, 6, 6]
    (by decide) (by decide)

end Uid
